import Mathlib

/-!
Verification of the batch document-generation pipeline of the mail-merge
utility (`src/auto_pcp.py` and `src/auto_pcp_v2.py`).

Strings are modelled as `List Char`.  The Python string operations the
source relies on (`str.strip`, `str.replace`, `re.sub` with a character
class, `re.findall` with the placeholder pattern, `dict` lookup) are
embedded below, each faithful to the exact call in the source code.
-/

namespace AutoPcp

/-- Characters stripped by Python `str.strip()` with no argument
(the ASCII whitespace range, which is all that can occur here). -/
def pyWhitespace (c : Char) : Bool :=
  c = ' ' || c = '\t' || c = '\n' || c = '\r' || c = '\x0b' || c = '\x0c'

/-- Python `s.strip(chars)`: remove the leading and trailing characters
satisfying `p` (interior characters are kept). -/
def stripBoth (p : Char → Bool) (l : List Char) : List Char :=
  List.rdropWhile p (l.dropWhile p)

/-- Python `s.strip()` (no argument form). -/
def pyStrip (l : List Char) : List Char := stripBoth pyWhitespace l

/-- The character class of `_clean_filename`'s
`re.sub(r'[<>:"/\\|?*]', '_', str(filename))`. -/
def invalidChar (c : Char) : Bool :=
  c = '<' || c = '>' || c = ':' || c = '"' || c = '/' || c = '\\' ||
  c = '|' || c = '?' || c = '*'

/-- Substitution step of that `re.sub`: a single-character class is
replaced character-wise. -/
def subInvalid (l : List Char) : List Char :=
  l.map fun c => if invalidChar c then '_' else c

/-- The strip set of `_clean_filename`'s `cleaned.strip(' .')`. -/
def spaceDot (c : Char) : Bool := c = ' ' || c = '.'

/-- Model of `_clean_filename` (the method body is identical in
`auto_pcp.py` and `auto_pcp_v2.py`): replace the invalid characters by
`_`, strip leading/trailing spaces and dots, and fall back to
`"document"` when the result is empty. -/
def cleanFilename (l : List Char) : List Char :=
  if stripBoth spaceDot (subInvalid l) = [] then "document".data
  else stripBoth spaceDot (subInvalid l)

/- ### Generic facts about the embedded string primitives -/

theorem dropWhile_stripBoth (p : Char → Bool) (l : List Char) :
    (stripBoth p l).dropWhile p = stripBoth p l := by
  rcases hA : stripBoth p l with _ | ⟨a, A⟩
  · rfl
  · have hpre : a :: A <+: l.dropWhile p := by
      rw [← hA]; exact List.rdropWhile_prefix p (l.dropWhile p)
    obtain ⟨t, ht⟩ := hpre
    have hm : (l.dropWhile p).dropWhile p = l.dropWhile p :=
      List.dropWhile_idempotent p l
    rw [← ht, List.cons_append] at hm
    by_cases hpa : p a = true
    · exfalso
      rw [List.dropWhile_cons, if_pos hpa] at hm
      have hlen := congrArg List.length hm
      have hle :=
        (List.dropWhile_suffix p : (A ++ t).dropWhile p <:+ A ++ t).sublist.length_le
      simp only [List.length_cons] at hlen
      omega
    · rw [List.dropWhile_cons, if_neg hpa]

theorem stripBoth_idem (p : Char → Bool) (l : List Char) :
    stripBoth p (stripBoth p l) = stripBoth p l := by
  show List.rdropWhile p ((stripBoth p l).dropWhile p) = stripBoth p l
  rw [dropWhile_stripBoth]
  exact List.rdropWhile_idempotent p (l.dropWhile p)

theorem mem_stripBoth {p : Char → Bool} {c : Char} {l : List Char}
    (h : c ∈ stripBoth p l) : c ∈ l := by
  unfold stripBoth at h
  have h1 := ( List.rdropWhile_prefix p (l.dropWhile p)).subset h
  exact (List.dropWhile_suffix p).subset h1

theorem stripBoth_eq_nil {p : Char → Bool} {l : List Char}
    (h : ∀ c ∈ l, p c = true) : stripBoth p l = [] := by
  unfold stripBoth
  rw [List.dropWhile_eq_nil_iff.mpr h]
  exact List.rdropWhile_nil p

theorem stripBoth_ne_nil_exists {p : Char → Bool} {l : List Char}
    (h : stripBoth p l ≠ []) : ∃ c ∈ l, p c = false := by
  by_contra hc
  push_neg at hc
  exact h (stripBoth_eq_nil fun c hcl => by
    have := hc c hcl
    revert this
    cases p c <;> simp)

theorem invalidRepl_fix (a : Char) :
    (if invalidChar (if invalidChar a then '_' else a) then '_'
     else (if invalidChar a then '_' else a)) = (if invalidChar a then '_' else a) := by
  by_cases h : invalidChar a = true
  · rw [if_pos h]
    decide
  · rw [if_neg h, if_neg h]

theorem subInvalid_fix_of_mem {c : Char} {l : List Char}
    (h : c ∈ subInvalid l) : (if invalidChar c then '_' else c) = c := by
  unfold subInvalid at h
  obtain ⟨a, _, rfl⟩ := List.mem_map.mp h
  exact invalidRepl_fix a

theorem subInvalid_of_fixed {l : List Char}
    (h : ∀ c ∈ l, (if invalidChar c then '_' else c) = c) : subInvalid l = l := by
  unfold subInvalid
  calc l.map (fun c => if invalidChar c then '_' else c)
      = l.map id := List.map_congr_left h
    _ = l := List.map_id l

/-- **C7**: the filename sanitization function `_clean_filename` is
idempotent: applying it to its own output returns that output unchanged. -/
theorem C7_cleanFilename_idempotent (l : List Char) :
    cleanFilename (cleanFilename l) = cleanFilename l := by
  by_cases h : stripBoth spaceDot (subInvalid l) = []
  · have hl : cleanFilename l = "document".data := by
      unfold cleanFilename; rw [if_pos h]
    rw [hl]
    decide
  · have hl : cleanFilename l = stripBoth spaceDot (subInvalid l) := by
      unfold cleanFilename; rw [if_neg h]
    rw [hl]
    have hfix : subInvalid (stripBoth spaceDot (subInvalid l))
        = stripBoth spaceDot (subInvalid l) :=
      subInvalid_of_fixed fun c hc => subInvalid_fix_of_mem (mem_stripBoth hc)
    unfold cleanFilename
    rw [hfix, stripBoth_idem, if_neg h]

/- ### The filename resolver of `auto_pcp_v2.py` -/

/-- A data record: an association list from field name to (stringified)
value, modelling the Python `dict` produced by `to_dict('records')`. -/
abbrev Record := List (List Char × List Char)

/-- Python `var in record` combined with `record[var]` on a `dict`
(also `record.get(key)`). -/
def lookupRec : Record → List Char → Option (List Char)
  | [], _ => none
  | (k, v) :: rest, key => if k = key then some v else lookupRec rest key

/-- If `old` is a leading run of `s`, returns the remainder of `s`
after it, else `none`. -/
def chopLeading : List Char → List Char → Option (List Char)
  | [], s => some s
  | _ :: _, [] => none
  | o :: os, c :: cs => if o = c then chopLeading os cs else none

/-- Python `s.replace(old, new)`: replace all non-overlapping occurrences
of `old` in `s`, left to right.  Recursion on a character budget;
`pyReplace` supplies budget `s.length`, which is never exhausted because
every step consumes at least one character of `s` (the source only ever
replaces placeholder texts of the form `"{...}"`, which are nonempty, so
the empty-`old` branch is unreachable there). -/
def pyReplaceFuel (old new : List Char) : Nat → List Char → List Char
  | _, [] => []
  | 0, s => s
  | n + 1, c :: rest =>
    if old.isEmpty then c :: rest
    else
      match chopLeading old (c :: rest) with
      | some rem => new ++ pyReplaceFuel old new n rem
      | none => c :: pyReplaceFuel old new n rest

def pyReplace (s old new : List Char) : List Char :=
  pyReplaceFuel old new s.length s

/-- Scanning step of `re.findall(r'\x7b([^\x7d]+)\x7d', pattern)` once a
`{` has been seen: take the (possibly empty) run of characters up to the
first `}`, returning it together with the remainder after that `}`. -/
def splitAtBrace : List Char → Option (List Char × List Char)
  | [] => none
  | c :: rest =>
    if c = '}' then some ([], rest)
    else
      match splitAtBrace rest with
      | some (content, rem) => some (c :: content, rem)
      | none => none

/-- Python `re.findall(r'\x7b([^\x7d]+)\x7d', pattern)`: all
non-overlapping leftmost matches; a match needs a nonempty brace-free
content followed by a closing brace, and scanning resumes after the
match (or one character further on a failed start).  Budgeted recursion
as in `pyReplaceFuel`; `findVars` supplies budget `pattern.length`,
never exhausted. -/
def findVarsFuel : Nat → List Char → List (List Char)
  | _, [] => []
  | 0, _ => []
  | n + 1, c :: rest =>
    if c = '{' then
      match splitAtBrace rest with
      | some (content, rem) =>
        if content.isEmpty then findVarsFuel n rest
        else content :: findVarsFuel n rem
      | none => findVarsFuel n rest
    else findVarsFuel n rest

def findVars (pat : List Char) : List (List Char) :=
  findVarsFuel pat.length pat

/-- The substitution loop of `_generate_filename` in `auto_pcp_v2.py`:
for each variable found in the pattern, in order, replace `{var}` by the
record's cleaned value (`str(record[var]).strip()` then
`_clean_filename`) when the field is present, else by the literal
`Unknown`. -/
def substitutePattern (record : Record) (pat : List Char) : List Char :=
  (findVars pat).foldl
    (fun filename var =>
      match lookupRec record var with
      | some v => pyReplace filename ('{' :: (var ++ ['}'])) (cleanFilename (pyStrip v))
      | none => pyReplace filename ('{' :: (var ++ ['}'])) ("Unknown".data))
    pat

/-- Model of `_generate_filename(self, record, pattern, index)` of
`auto_pcp_v2.py`: run the substitutions, then fall back to
`document_<index+1>` when the result is empty, all underscores, or all
whitespace (`if not filename.strip('_') or filename.strip() == ''`).
The function is pure, so the `except` branch (which returns the same
fallback) is unreachable in this model. -/
def generateFilename (record : Record) (pat : List Char) (index : Nat) : List Char :=
  if stripBoth (fun c => c = '_') (substitutePattern record pat) = []
      ∨ pyStrip (substitutePattern record pat) = [] then
    "document_".data ++ (Nat.repr (index + 1)).data
  else substitutePattern record pat

/- ### Facts about the resolver's building blocks -/

theorem findVarsFuel_nil (n : Nat) : findVarsFuel n [] = [] := by
  cases n <;> rfl

theorem pyReplaceFuel_nil (old new : List Char) (n : Nat) :
    pyReplaceFuel old new n [] = [] := by
  cases n <;> rfl

theorem chopLeading_self : ∀ l : List Char, chopLeading l l = some []
  | [] => rfl
  | c :: cs => by
    unfold chopLeading
    rw [if_pos rfl]
    exact chopLeading_self cs

theorem pyReplaceFuel_succ_cons (old new : List Char) (n : Nat) (c : Char)
    (rest : List Char) :
    pyReplaceFuel old new (n + 1) (c :: rest) =
      if old.isEmpty then c :: rest
      else
        match chopLeading old (c :: rest) with
        | some rem => new ++ pyReplaceFuel old new n rem
        | none => c :: pyReplaceFuel old new n rest := rfl

theorem pyReplace_self (s new : List Char) (h : s ≠ []) :
    pyReplace s s new = new := by
  rcases s with _ | ⟨c, rest⟩
  · exact absurd rfl h
  · show pyReplaceFuel (c :: rest) new (c :: rest).length (c :: rest) = new
    rw [List.length_cons, pyReplaceFuel_succ_cons, chopLeading_self]
    simp [pyReplaceFuel_nil]

theorem splitAtBrace_closed : ∀ (var : List Char), '}' ∉ var →
    splitAtBrace (var ++ ['}']) = some (var, [])
  | [], _ => by simp [splitAtBrace]
  | c :: cs, h => by
    rw [List.mem_cons, not_or] at h
    obtain ⟨h1, h2⟩ := h
    have hc : ¬ c = '}' := fun hq => h1 hq.symm
    rw [List.cons_append]
    unfold splitAtBrace
    rw [if_neg hc, splitAtBrace_closed cs h2]

theorem findVarsFuel_succ_cons (n : Nat) (c : Char) (rest : List Char) :
    findVarsFuel (n + 1) (c :: rest) =
      if c = '{' then
        match splitAtBrace rest with
        | some (content, rem) =>
          if content.isEmpty then findVarsFuel n rest
          else content :: findVarsFuel n rem
        | none => findVarsFuel n rest
      else findVarsFuel n rest := rfl

theorem findVars_single (var : List Char) (hne : var ≠ []) (hbr : '}' ∉ var) :
    findVars ('{' :: (var ++ ['}'])) = [var] := by
  have hie : var.isEmpty = false := by
    rcases var with _ | _
    · exact absurd rfl hne
    · rfl
  show findVarsFuel ('{' :: (var ++ ['}'])).length ('{' :: (var ++ ['}'])) = [var]
  rw [List.length_cons, List.length_append, List.length_singleton,
    findVarsFuel_succ_cons, if_pos rfl, splitAtBrace_closed var hbr]
  simp [hie, findVarsFuel_nil]

theorem substitutePattern_missing (record : Record) (var : List Char)
    (hne : var ≠ []) (hbr : '}' ∉ var) (habs : lookupRec record var = none) :
    substitutePattern record ('{' :: (var ++ ['}'])) = "Unknown".data := by
  unfold substitutePattern
  rw [findVars_single var hne hbr]
  simp only [List.foldl_cons, List.foldl_nil, habs]
  exact pyReplace_self _ _ (by simp)

/- ### The claims about the filename resolver -/

/-- **C1**: for every pattern, record and index, `_generate_filename`
returns a stem that is neither empty nor all underscores; and whenever
the substitution result is empty or all underscores, the returned stem
is the fallback `document_<index+1>`. -/
theorem C1_generateFilename_total (record : Record) (pat : List Char) (index : Nat) :
    (generateFilename record pat index ≠ []
      ∧ ¬ (∀ c ∈ generateFilename record pat index, c = '_'))
    ∧ ((substitutePattern record pat = []
          ∨ ∀ c ∈ substitutePattern record pat, c = '_') →
        generateFilename record pat index
          = "document_".data ++ (Nat.repr (index + 1)).data) := by
  constructor
  · unfold generateFilename
    by_cases h : stripBoth (fun c => c = '_') (substitutePattern record pat) = []
        ∨ pyStrip (substitutePattern record pat) = []
    · rw [if_pos h]
      refine ⟨by simp, fun hall => ?_⟩
      have hd : 'd' ∈ "document_".data ++ (Nat.repr (index + 1)).data :=
        List.mem_append.mpr (Or.inl (by decide))
      exact absurd (hall 'd' hd) (by decide)
    · rw [if_neg h]
      push_neg at h
      obtain ⟨h1, _⟩ := h
      obtain ⟨c, hc, hcf⟩ := stripBoth_ne_nil_exists h1
      refine ⟨fun hnil => ?_, fun hall => ?_⟩
      · rw [hnil] at hc
        exact absurd hc (List.not_mem_nil c)
      · rw [hall c hc] at hcf
        simp at hcf
  · intro hsub
    have hstrip : stripBoth (fun c => c = '_') (substitutePattern record pat) = [] := by
      rcases hsub with h | h
      · rw [h]; rfl
      · exact stripBoth_eq_nil fun c hc => by simp [h c hc]
    unfold generateFilename
    rw [if_pos (Or.inl hstrip)]

/-- Witness for C1 at a concrete input: the empty pattern substitutes to
the empty stem, so the resolver returns the index fallback; and that
fallback is neither empty nor all underscores. -/
theorem C1_generateFilename_total_witness :
    generateFilename [] [] 4 = "document_5".data
      ∧ generateFilename [] [] 4 ≠ [] := by
  have h := C1_generateFilename_total [] [] 4
  refine ⟨?_, h.1.1⟩
  have h2 := h.2 (Or.inl rfl)
  rw [h2]
  decide

/-- **C2** counterexample: with pattern `{First Name}_{Last Name}` and a
record whose First Name and Last Name are both the empty string, the
resolver does not return the claimed fallback `document_1` (index 0). -/
theorem C2_empty_names_counterexample :
    generateFilename [("First Name".data, []), ("Last Name".data, [])]
      "{First Name}_{Last Name}".data 0 ≠ "document_1".data := by decide

/-- **C2** (amended): pattern `{First Name}_{Last Name}` with record
First Name = "Ann", Last Name = "Lee" resolves to `Ann_Lee`; with both
fields empty it resolves to the stem `document_document`, because each
present-but-empty value is sanitized to `document` by `_clean_filename`
(so the index fallback is not used). -/
theorem C2_filename_examples :
    generateFilename
        [("First Name".data, "Ann".data), ("Last Name".data, "Lee".data)]
        "{First Name}_{Last Name}".data 0 = "Ann_Lee".data
    ∧ generateFilename
        [("First Name".data, []), ("Last Name".data, [])]
        "{First Name}_{Last Name}".data 0 = "document_document".data := by
  exact ⟨by decide, by decide⟩

/-- **C6**: a placeholder field referenced in the pattern but absent from
the record is substituted by exactly the literal `Unknown`: the pattern
consisting of that placeholder alone resolves to the stem `Unknown`, for
every record lacking the field. -/
theorem C6_missing_field_unknown (record : Record) (var : List Char) (index : Nat)
    (hne : var ≠ []) (hbr : '}' ∉ var) (habs : lookupRec record var = none) :
    generateFilename record ('{' :: (var ++ ['}'])) index = "Unknown".data := by
  unfold generateFilename
  rw [substitutePattern_missing record var hne hbr habs, if_neg (by decide)]

/-- Witness for C6 at a concrete input: a record without a `Name` field,
pattern `{Name}`. -/
theorem C6_missing_field_unknown_witness :
    generateFilename [("City".data, "Rome".data)] ('{' :: ("Name".data ++ ['}'])) 3
      = "Unknown".data :=
  C6_missing_field_unknown [("City".data, "Rome".data)] "Name".data 3
    (by decide) (by decide) (by decide)

/- ### The batch worker of `auto_pcp_v2.py` (`_mail_merge_worker`) -/

/-- Messages enqueued on `self.message_queue`, with the payloads the
source formats into the message texts modelled structurally.  The
completion status and the detailed result message also embed the elapsed
wall-clock time; being a runtime value with no pure counterpart, it is
implicit in those two constructors. -/
inductive Msg where
  | statusInit
  | statusProcessing (i total : Nat)
  | statusCompletion (succ err : Nat)
  | statusErrorDuring
  | statusReady
  | progress (value : ℚ)
  | summary (succ : Nat) (err skip : Option Nat)
  | errorReport
  deriving DecidableEq

/-- Outcome of (a suffix of) the per-record loop, and of a whole run:
counters contributed from this point on, whether an exception escaped
the loop (skip-errors disabled), and the messages enqueued. -/
structure LoopOut where
  success : Nat
  error : Nat
  skipped : Nat
  attempted : Nat
  aborted : Bool
  events : List Msg
  deriving DecidableEq

/-- The loop `for i, record in enumerate(records)` of
`_mail_merge_worker`, with each record abstracted to whether processing
it raises (template render, directory creation, file write or PDF
conversion failure).  `i` is the enumeration index, `total` the record
count; each iteration first enqueues its status and progress messages,
then on failure increments the error counter and either re-raises
(aborting the loop) or increments the skipped counter and continues. -/
def workerLoop (skipErrors : Bool) (total : Nat) : Nat → List Bool → LoopOut
  | _, [] => ⟨0, 0, 0, 0, false, []⟩
  | i, f :: rest =>
    let evts := [Msg.statusProcessing (i + 1) total,
                 Msg.progress ((i : ℚ) / (total : ℚ) * 100)]
    if f then
      if skipErrors then
        let out := workerLoop skipErrors total (i + 1) rest
        ⟨out.success, out.error + 1, out.skipped + 1, out.attempted + 1,
          out.aborted, evts ++ out.events⟩
      else
        ⟨0, 1, 0, 1, true, evts⟩
    else
      let out := workerLoop skipErrors total (i + 1) rest
      ⟨out.success + 1, out.error, out.skipped, out.attempted + 1,
        out.aborted, evts ++ out.events⟩

/-- Model of `_mail_merge_worker` from the point where the records are
in memory, a run being abstracted by its list of per-record failure
flags: the initial status and 0% progress messages, the
`total_records == 0` check (which raises), the record loop, the
completion messages (100% progress, completion status, and the detailed
result message, which names the errored and skipped counts only when
nonzero), the `except` branch (status plus error message) and the
`finally` branch (a final `Ready` status). -/
def mailMergeWorker (skipErrors : Bool) (fails : List Bool) : LoopOut :=
  if fails.length = 0 then
    ⟨0, 0, 0, 0, true,
      [Msg.statusInit, Msg.progress 0,
       Msg.statusErrorDuring, Msg.errorReport, Msg.statusReady]⟩
  else if (workerLoop skipErrors fails.length 0 fails).aborted then
    ⟨(workerLoop skipErrors fails.length 0 fails).success,
      (workerLoop skipErrors fails.length 0 fails).error,
      (workerLoop skipErrors fails.length 0 fails).skipped,
      (workerLoop skipErrors fails.length 0 fails).attempted, true,
      [Msg.statusInit, Msg.progress 0]
        ++ (workerLoop skipErrors fails.length 0 fails).events
        ++ [Msg.statusErrorDuring, Msg.errorReport, Msg.statusReady]⟩
  else
    ⟨(workerLoop skipErrors fails.length 0 fails).success,
      (workerLoop skipErrors fails.length 0 fails).error,
      (workerLoop skipErrors fails.length 0 fails).skipped,
      (workerLoop skipErrors fails.length 0 fails).attempted, false,
      [Msg.statusInit, Msg.progress 0]
        ++ (workerLoop skipErrors fails.length 0 fails).events
        ++ [Msg.progress 100,
            Msg.statusCompletion (workerLoop skipErrors fails.length 0 fails).success
              (workerLoop skipErrors fails.length 0 fails).error,
            Msg.summary (workerLoop skipErrors fails.length 0 fails).success
              (if (workerLoop skipErrors fails.length 0 fails).error > 0
                then some (workerLoop skipErrors fails.length 0 fails).error else none)
              (if (workerLoop skipErrors fails.length 0 fails).skipped > 0
                then some (workerLoop skipErrors fails.length 0 fails).skipped else none),
            Msg.statusReady]⟩

/-- The progress percentages of a message list, in order. -/
def progressValues (evts : List Msg) : List ℚ :=
  evts.filterMap fun m =>
    match m with
    | Msg.progress v => some v
    | _ => none

/-- Does a message carry the run's counters (the completion status or
the detailed result message)? -/
def mentionsCounts : Msg → Bool
  | Msg.statusCompletion _ _ => true
  | Msg.summary _ _ _ => true
  | _ => false

/- ### Per-record output directories -/

/-- Model of `doc_folder_path = record.get('DocFolderPath',
self.output_dir.get())` (identical in both source files). -/
def docFolderPath (record : Record) (outputDir : List Char) : List Char :=
  (lookupRec record "DocFolderPath".data).getD outputDir

/-- Model of `pdf_folder_path = record.get('PdfFolderPath',
self.output_dir.get())` (identical in both source files). -/
def pdfFolderPath (record : Record) (outputDir : List Char) : List Char :=
  (lookupRec record "PdfFolderPath".data).getD outputDir

/- ### Counter bookkeeping of the loop -/

theorem workerLoop_skip_counts (total : Nat) :
    ∀ (fails : List Bool) (i : Nat),
      (workerLoop true total i fails).aborted = false
      ∧ (workerLoop true total i fails).attempted = fails.length
      ∧ (workerLoop true total i fails).error = fails.count true
      ∧ (workerLoop true total i fails).skipped = fails.count true
      ∧ (workerLoop true total i fails).success = fails.count false
  | [], i => by simp [workerLoop]
  | f :: rest, i => by
    obtain ⟨h1, h2, h3, h4, h5⟩ := workerLoop_skip_counts total rest (i + 1)
    cases f <;>
      simp [workerLoop, h1, h2, h3, h4, h5, List.count_cons]

theorem count_true_add_count_false : ∀ l : List Bool, l.count true + l.count false = l.length
  | [] => rfl
  | b :: l => by
    have ih := count_true_add_count_false l
    cases b <;> simp [List.count_cons] <;> omega

/-- **C3**: with skip-errors enabled, a batch of `N` records in which
exactly `k` fail (`k` being the number of `true` failure flags) runs to
completion without aborting, attempts all `N` records, and reports
`succeeded = N - k` and `errored = k`. -/
theorem C3_skip_errors_counts (fails : List Bool) (hne : fails ≠ []) :
    (mailMergeWorker true fails).aborted = false
    ∧ (mailMergeWorker true fails).attempted = fails.length
    ∧ (mailMergeWorker true fails).success = fails.length - fails.count true
    ∧ (mailMergeWorker true fails).error = fails.count true := by
  obtain ⟨h1, h2, h3, h4, h5⟩ := workerLoop_skip_counts fails.length fails 0
  have htot : ¬ fails.length = 0 := fun h => hne (List.length_eq_zero.mp h)
  have hcnt := count_true_add_count_false fails
  unfold mailMergeWorker
  rw [if_neg htot]
  simp only [h1, Bool.false_eq_true, if_false]
  exact ⟨trivial, h2, by rw [h5]; omega, h3⟩

/-- Witness for C3: three records of which the first and third fail. -/
theorem C3_skip_errors_counts_witness :
    (mailMergeWorker true [true, false, true]).aborted = false
    ∧ (mailMergeWorker true [true, false, true]).attempted = 3
    ∧ (mailMergeWorker true [true, false, true]).success = 1
    ∧ (mailMergeWorker true [true, false, true]).error = 2 := by
  obtain ⟨a, b, c, d⟩ := C3_skip_errors_counts [true, false, true] (by decide)
  exact ⟨a, b, c, d⟩

theorem workerLoop_abort_at_first (total : Nat) :
    ∀ (pre post : List Bool) (i : Nat), (∀ b ∈ pre, b = false) →
      (workerLoop false total i (pre ++ true :: post)).aborted = true
      ∧ (workerLoop false total i (pre ++ true :: post)).success = pre.length
      ∧ (workerLoop false total i (pre ++ true :: post)).error = 1
      ∧ (workerLoop false total i (pre ++ true :: post)).skipped = 0
      ∧ (workerLoop false total i (pre ++ true :: post)).attempted = pre.length + 1
  | [], post, i, _ => by simp [workerLoop]
  | b :: pre, post, i, hpre => by
    have hb : b = false := hpre b (List.mem_cons_self b pre)
    obtain ⟨h1, h2, h3, h4, h5⟩ := workerLoop_abort_at_first total pre post (i + 1)
      (fun x hx => hpre x (List.mem_cons_of_mem b hx))
    subst hb
    simp [workerLoop, h1, h2, h3, h4, h5]

/-- **C4**: with skip-errors disabled, if the records before index `j`
(= `pre.length`) succeed and record `j` fails, the run aborts with
`succeeded = j` and `errored = 1`, and exactly `j + 1` records are
attempted — none after index `j`. -/
theorem C4_abort_on_first_error (pre post : List Bool) (hpre : ∀ b ∈ pre, b = false) :
    (mailMergeWorker false (pre ++ true :: post)).aborted = true
    ∧ (mailMergeWorker false (pre ++ true :: post)).success = pre.length
    ∧ (mailMergeWorker false (pre ++ true :: post)).error = 1
    ∧ (mailMergeWorker false (pre ++ true :: post)).attempted = pre.length + 1 := by
  obtain ⟨h1, h2, h3, h4, h5⟩ :=
    workerLoop_abort_at_first (pre ++ true :: post).length pre post 0 hpre
  have htot : ¬ (pre ++ true :: post).length = 0 := by simp
  unfold mailMergeWorker
  rw [if_neg htot]
  simp only [h1, if_true]
  exact ⟨trivial, h2, h3, h5⟩

/-- Witness for C4: the second of three records fails, the first
succeeds. -/
theorem C4_abort_on_first_error_witness :
    (mailMergeWorker false ([false] ++ true :: [false])).aborted = true
    ∧ (mailMergeWorker false ([false] ++ true :: [false])).success = 1
    ∧ (mailMergeWorker false ([false] ++ true :: [false])).error = 1
    ∧ (mailMergeWorker false ([false] ++ true :: [false])).attempted = 2 :=
  C4_abort_on_first_error [false] [false] (by decide)

/-- **C10**: with skip-errors enabled every failing record increments
both the errored and the skipped counter, so at the end of every run the
reported errored count equals the reported skipped count. -/
theorem C10_errored_eq_skipped (fails : List Bool) :
    (mailMergeWorker true fails).error = (mailMergeWorker true fails).skipped := by
  obtain ⟨h1, _, h3, h4, _⟩ := workerLoop_skip_counts fails.length fails 0
  unfold mailMergeWorker
  by_cases htot : fails.length = 0
  · rw [if_pos htot]
  · rw [if_neg htot]
    simp only [h1, Bool.false_eq_true, if_false]
    rw [h3, h4]

/-- **C9**: per record, the Word output directory is the record's
`DocFolderPath` field and the PDF output directory the record's
`PdfFolderPath` field when present, and each defaults to the run's
output directory otherwise. -/
theorem C9_output_directories (record : Record) (outputDir v : List Char) :
    (lookupRec record "DocFolderPath".data = some v →
        docFolderPath record outputDir = v)
    ∧ (lookupRec record "DocFolderPath".data = none →
        docFolderPath record outputDir = outputDir)
    ∧ (lookupRec record "PdfFolderPath".data = some v →
        pdfFolderPath record outputDir = v)
    ∧ (lookupRec record "PdfFolderPath".data = none →
        pdfFolderPath record outputDir = outputDir) := by
  refine ⟨fun h => ?_, fun h => ?_, fun h => ?_, fun h => ?_⟩ <;>
    simp [docFolderPath, pdfFolderPath, h]

/-- Witness for C9: a record carrying only `DocFolderPath`. -/
theorem C9_output_directories_witness :
    docFolderPath [("DocFolderPath".data, "D".data)] "O".data = "D".data
    ∧ pdfFolderPath [("DocFolderPath".data, "D".data)] "O".data = "O".data := by
  have h := C9_output_directories [("DocFolderPath".data, "D".data)] "O".data "D".data
  exact ⟨h.1 (by decide), h.2.2.2 (by decide)⟩

/- ### Terminal reporting (C5) -/

theorem workerLoop_events_no_counts (skipE : Bool) (total : Nat) :
    ∀ (fails : List Bool) (i : Nat),
      ∀ m ∈ (workerLoop skipE total i fails).events, mentionsCounts m = false
  | [], i => by simp [workerLoop]
  | f :: rest, i => by
    intro m hm
    have ih := workerLoop_events_no_counts skipE total rest (i + 1)
    cases f
    · simp [workerLoop] at hm
      rcases hm with rfl | rfl | hm
      · rfl
      · rfl
      · exact ih m hm
    · cases skipE
      · simp [workerLoop] at hm
        rcases hm with rfl | rfl
        · rfl
        · rfl
      · simp [workerLoop] at hm
        rcases hm with rfl | rfl | hm
        · rfl
        · rfl
        · exact ih m hm

/-- **C5** counterexample: with skip-errors disabled and a single
failing record, the run aborts and enqueues no message carrying the
run's counters at all, so no terminal summary with the
succeeded/errored/skipped counts and elapsed time is reported. -/
theorem C5_abort_no_summary_counterexample :
    (mailMergeWorker false [true]).aborted = true
    ∧ (mailMergeWorker false [true]).events.all (fun m => ! mentionsCounts m) = true :=
  ⟨by decide, by decide⟩

/-- **C5** (amended): a final `Ready` status is always the last message
enqueued, even on abort; a completed run enqueues the terminal result
message carrying the succeeded count (with the errored and skipped
counts when nonzero) and the completion status carrying the succeeded
and errored counts; but an aborted run enqueues only the error status
and error message — none of its messages carries any counts. -/
theorem C5_terminal_reporting (skipE : Bool) (fails : List Bool) :
    (mailMergeWorker skipE fails).events.getLast? = some Msg.statusReady
    ∧ ((mailMergeWorker skipE fails).aborted = false →
        Msg.summary (mailMergeWorker skipE fails).success
            (if (mailMergeWorker skipE fails).error > 0
              then some (mailMergeWorker skipE fails).error else none)
            (if (mailMergeWorker skipE fails).skipped > 0
              then some (mailMergeWorker skipE fails).skipped else none)
          ∈ (mailMergeWorker skipE fails).events
        ∧ Msg.statusCompletion (mailMergeWorker skipE fails).success
            (mailMergeWorker skipE fails).error ∈ (mailMergeWorker skipE fails).events)
    ∧ ((mailMergeWorker skipE fails).aborted = true →
        Msg.errorReport ∈ (mailMergeWorker skipE fails).events
        ∧ ∀ m ∈ (mailMergeWorker skipE fails).events, mentionsCounts m = false) := by
  unfold mailMergeWorker
  by_cases htot : fails.length = 0
  · rw [if_pos htot]
    exact ⟨rfl, fun h => by simp at h, fun _ => ⟨by simp, by decide⟩⟩
  · rw [if_neg htot]
    by_cases hab : (workerLoop skipE fails.length 0 fails).aborted = true
    · rw [if_pos hab]
      refine ⟨?_, fun h => by simp at h, fun _ => ⟨by simp, ?_⟩⟩
      · rw [List.getLast?_append_of_ne_nil _ (by simp)]
        decide
      · intro m hm
        rcases List.mem_append.mp hm with h12 | h3
        · rcases List.mem_append.mp h12 with h1 | h2
          · fin_cases h1 <;> rfl
          · exact workerLoop_events_no_counts skipE fails.length fails 0 m h2
        · fin_cases h3 <;> rfl
    · rw [if_neg hab]
      refine ⟨?_, fun _ => ⟨by simp, by simp⟩, fun h => by simp at h⟩
      rw [List.getLast?_append_of_ne_nil _ (by simp)]
      simp

/-- Witness for C5: the completed one-record run enqueues the terminal
summary and ends with the `Ready` status. -/
theorem C5_terminal_reporting_witness :
    (mailMergeWorker true [false]).events.getLast? = some Msg.statusReady
    ∧ Msg.summary 1 none none ∈ (mailMergeWorker true [false]).events := by
  have h := C5_terminal_reporting true [false]
  refine ⟨h.1, ?_⟩
  have h2 := (h.2.1 (by decide)).1
  have e1 : (mailMergeWorker true [false]).success = 1 := by decide
  have e2 : (if (mailMergeWorker true [false]).error > 0
      then some (mailMergeWorker true [false]).error else none) = (none : Option Nat) := by
    decide
  have e3 : (if (mailMergeWorker true [false]).skipped > 0
      then some (mailMergeWorker true [false]).skipped else none) = (none : Option Nat) := by
    decide
  rw [e1, e2, e3] at h2
  exact h2

/- ### Progress events (C8) -/

theorem progressValues_append (l1 l2 : List Msg) :
    progressValues (l1 ++ l2) = progressValues l1 ++ progressValues l2 :=
  List.filterMap_append l1 l2 _

theorem progressValues_init :
    progressValues [Msg.statusInit, Msg.progress 0] = [0] := rfl

theorem progressValues_errTail :
    progressValues [Msg.statusErrorDuring, Msg.errorReport, Msg.statusReady] = [] := rfl

theorem progressValues_doneTail (s e : Nat) (oe os : Option Nat) :
    progressValues [Msg.progress 100, Msg.statusCompletion s e, Msg.summary s oe os,
      Msg.statusReady] = [100] := rfl

theorem progressValues_nil : progressValues [] = [] := rfl

theorem progressValues_iter (a b : Nat) (v : ℚ) :
    progressValues [Msg.statusProcessing a b, Msg.progress v] = [v] := rfl

theorem progressValues_cons_status (a b : Nat) (l : List Msg) :
    progressValues (Msg.statusProcessing a b :: l) = progressValues l := rfl

theorem progressValues_cons_progress (v : ℚ) (l : List Msg) :
    progressValues (Msg.progress v :: l) = v :: progressValues l := rfl

theorem workerLoop_attempted_le (skipE : Bool) (total : Nat) :
    ∀ (fails : List Bool) (i : Nat),
      (workerLoop skipE total i fails).attempted ≤ fails.length
  | [], i => by simp [workerLoop]
  | f :: rest, i => by
    have ih := workerLoop_attempted_le skipE total rest (i + 1)
    cases f
    · simp [workerLoop]
      omega
    · cases skipE
      · simp [workerLoop]
      · simp [workerLoop]
        omega

theorem workerLoop_progress (skipE : Bool) (total : Nat) :
    ∀ (fails : List Bool) (i : Nat),
      progressValues (workerLoop skipE total i fails).events
        = (List.range' i (workerLoop skipE total i fails).attempted).map
            (fun (j : Nat) => (j : ℚ) / (total : ℚ) * 100)
  | [], i => by simp [workerLoop, progressValues_nil]
  | f :: rest, i => by
    have ih := workerLoop_progress skipE total rest (i + 1)
    cases f
    · simp [workerLoop, progressValues_cons_status, progressValues_cons_progress, ih,
        List.range'_succ]
    · cases skipE
      · simp [workerLoop, progressValues_cons_status, progressValues_cons_progress,
          progressValues_nil, List.range'_succ]
      · simp [workerLoop, progressValues_cons_status, progressValues_cons_progress, ih,
          List.range'_succ]

theorem progress_val_nonneg (total j : Nat) : (0 : ℚ) ≤ (j : ℚ) / (total : ℚ) * 100 :=
  mul_nonneg (div_nonneg (Nat.cast_nonneg j) (Nat.cast_nonneg total)) (by norm_num)

theorem progress_val_mono (total : Nat) {j k : Nat} (h : j ≤ k) :
    (j : ℚ) / (total : ℚ) * 100 ≤ (k : ℚ) / (total : ℚ) * 100 := by
  have hjk : (j : ℚ) ≤ (k : ℚ) := by exact_mod_cast h
  rcases Nat.eq_zero_or_pos total with h0 | h0
  · subst h0
    simp
  · have htpos : (0 : ℚ) < (total : ℚ) := by exact_mod_cast h0
    exact mul_le_mul_of_nonneg_right
      ((div_le_div_iff_of_pos_right htpos).mpr hjk) (by norm_num)

theorem progress_val_le_100 (total j : Nat) (hj : j ≤ total) (h0 : total ≠ 0) :
    (j : ℚ) / (total : ℚ) * 100 ≤ 100 := by
  have htpos : (0 : ℚ) < (total : ℚ) := by
    exact_mod_cast Nat.pos_of_ne_zero h0
  have hdiv : (j : ℚ) / (total : ℚ) ≤ 1 := by
    rw [div_le_one htpos]
    exact_mod_cast hj
  calc (j : ℚ) / (total : ℚ) * 100 ≤ 1 * 100 :=
        mul_le_mul_of_nonneg_right hdiv (by norm_num)
    _ = 100 := one_mul 100

theorem pairwise_progress_list (total a : Nat) (tail : List ℚ)
    (htail : tail = [] ∨ (tail = [100] ∧ a ≤ total ∧ total ≠ 0)) :
    List.Pairwise (· ≤ ·)
      ((0 : ℚ) :: ((List.range' 0 a).map (fun (j : Nat) => (j : ℚ) / (total : ℚ) * 100) ++ tail)) := by
  rw [List.pairwise_cons]
  refine ⟨?_, ?_⟩
  · intro v hv
    rcases List.mem_append.mp hv with h | h
    · obtain ⟨j, _, rfl⟩ := List.mem_map.mp h
      exact progress_val_nonneg total j
    · rcases htail with rfl | ⟨rfl, _, _⟩
      · exact absurd h (List.not_mem_nil v)
      · have hv100 := List.mem_singleton.mp h
        subst hv100
        norm_num
  · rw [List.pairwise_append]
    refine ⟨?_, ?_, ?_⟩
    · exact (List.pairwise_lt_range' 0 a).map _
        (fun x y hxy => progress_val_mono total hxy.le)
    · rcases htail with rfl | ⟨rfl, _, _⟩
      · exact List.Pairwise.nil
      · exact List.pairwise_singleton _ _
    · intro x hx y hy
      rcases htail with rfl | ⟨rfl, ha, h0⟩
      · exact absurd hy (List.not_mem_nil y)
      · obtain ⟨j, hj, rfl⟩ := List.mem_map.mp hx
        have hy100 := List.mem_singleton.mp hy
        subst hy100
        have hjlt := (List.mem_range'_1.mp hj).2
        exact progress_val_le_100 total j (by omega) h0

theorem bounds_progress_list (total a : Nat) (ha : a ≤ total) (h0 : total ≠ 0)
    (tail : List ℚ) (htail : tail = [] ∨ tail = [100]) :
    ∀ v ∈ (0 : ℚ) :: ((List.range' 0 a).map (fun (j : Nat) => (j : ℚ) / (total : ℚ) * 100) ++ tail),
      0 ≤ v ∧ v ≤ 100 := by
  intro v hv
  rcases List.mem_cons.mp hv with rfl | hv2
  · norm_num
  · rcases List.mem_append.mp hv2 with h | h
    · obtain ⟨j, hj, rfl⟩ := List.mem_map.mp h
      have hjlt := (List.mem_range'_1.mp hj).2
      exact ⟨progress_val_nonneg total j, progress_val_le_100 total j (by omega) h0⟩
    · rcases htail with rfl | rfl
      · exact absurd h (List.not_mem_nil v)
      · have hv100 := List.mem_singleton.mp h
        subst hv100
        norm_num

/-- **C8** counterexample: a completed run over a single successful
record enqueues three progress events (the initial 0%, the record's 0%,
and the final 100%) — more than one progress event per completed
record. -/
theorem C8_progress_count_counterexample :
    (mailMergeWorker true [false]).success = 1
    ∧ ¬ ((progressValues (mailMergeWorker true [false]).events).length
          ≤ (mailMergeWorker true [false]).success) :=
  ⟨by decide, by decide⟩

/-- **C8** (amended): across any run the progress percentages enqueued
are monotonically non-decreasing and lie within 0–100, and within the
record loop exactly one progress event is enqueued per attempted record;
the run-level initial 0% event and (on completion) final 100% event come
in addition. -/
theorem C8_progress_monotone (skipE : Bool) (fails : List Bool) :
    List.Pairwise (· ≤ ·) (progressValues (mailMergeWorker skipE fails).events)
    ∧ (∀ v ∈ progressValues (mailMergeWorker skipE fails).events, 0 ≤ v ∧ v ≤ 100)
    ∧ (progressValues (workerLoop skipE fails.length 0 fails).events).length
        = (workerLoop skipE fails.length 0 fails).attempted := by
  have hloop := workerLoop_progress skipE fails.length fails 0
  have hle := workerLoop_attempted_le skipE fails.length fails 0
  have hlen3 : (progressValues (workerLoop skipE fails.length 0 fails).events).length
      = (workerLoop skipE fails.length 0 fails).attempted := by
    rw [hloop]
    simp
  refine ⟨?_, ?_, hlen3⟩
  · unfold mailMergeWorker
    by_cases htot : fails.length = 0
    · rw [if_pos htot]
      decide
    · rw [if_neg htot]
      by_cases hab : (workerLoop skipE fails.length 0 fails).aborted = true
      · rw [if_pos hab]
        dsimp only
        rw [progressValues_append, progressValues_append, progressValues_init,
          progressValues_errTail, hloop, List.append_nil]
        have hp := pairwise_progress_list fails.length
          (workerLoop skipE fails.length 0 fails).attempted [] (Or.inl rfl)
        simpa using hp
      · rw [if_neg hab]
        dsimp only
        rw [progressValues_append, progressValues_append, progressValues_init,
          progressValues_doneTail, hloop]
        have hp := pairwise_progress_list fails.length
          (workerLoop skipE fails.length 0 fails).attempted [100]
          (Or.inr ⟨rfl, hle, htot⟩)
        simpa using hp
  · unfold mailMergeWorker
    by_cases htot : fails.length = 0
    · rw [if_pos htot]
      decide
    · rw [if_neg htot]
      by_cases hab : (workerLoop skipE fails.length 0 fails).aborted = true
      · rw [if_pos hab]
        dsimp only
        rw [progressValues_append, progressValues_append, progressValues_init,
          progressValues_errTail, hloop, List.append_nil]
        have hb := bounds_progress_list fails.length
          (workerLoop skipE fails.length 0 fails).attempted hle htot [] (Or.inl rfl)
        simpa using hb
      · rw [if_neg hab]
        dsimp only
        rw [progressValues_append, progressValues_append, progressValues_init,
          progressValues_doneTail, hloop]
        have hb := bounds_progress_list fails.length
          (workerLoop skipE fails.length 0 fails).attempted hle htot [100] (Or.inr rfl)
        simpa using hb

/-- Witness for C8 at a concrete run. -/
theorem C8_progress_monotone_witness :
    List.Pairwise (· ≤ ·) (progressValues (mailMergeWorker true [false]).events)
    ∧ (progressValues (workerLoop true 1 0 [false]).events).length
        = (workerLoop true 1 0 [false]).attempted := by
  have h := C8_progress_monotone true [false]
  exact ⟨h.1, h.2.2⟩

end AutoPcp
